import Mathlib

/-!
# Verification of the pctl build subsystem

A shallow embedding, in Lean 4, of the build-orchestration subsystem of the
`pctl` deployment helper: content hashing of build contexts
(`HashBuildContext`), tag generation and validation (`GenerateTag`,
`ValidateTag`, `ValidateTagFormat`), `.dockerignore` loading and pattern
matching (`loadDockerignore`, `shouldIgnore`, `matchesPattern`), and the
build orchestrator (`BuildServices`, `buildService`).

Go strings are modelled as `List Char` (Go string indexing is byte-based,
but every comparison and split performed by this code is compatible with
the code-point view; byte lengths are computed through an explicit UTF-8
encoder where the code measures bytes).  The filesystem under a build
context is modelled as an explicit tree (`FSNode`); a file whose content is
`none` models a file that cannot be opened.  The incremental
`hasher.Write` calls of the Go code are modelled by accumulating the
byte transcript and hashing it once at the end, which is exactly what an
incremental SHA-256 of the concatenation computes.  SHA-256 itself is
implemented executably below.

All recursion is structural or fuel-based so that every definition reduces
inside the kernel, letting concrete runs be checked by `decide`.
-/

set_option maxRecDepth 40000

namespace Pctl

/-- Characters of a string literal (convenience for writing `List Char` values). -/
def chs (s : String) : List Char := s.data

/-- Decidable equality of `Except` values, used to check concrete runs. -/
instance {ε α : Type} [DecidableEq ε] [DecidableEq α] : DecidableEq (Except ε α) := fun x y =>
  match x, y with
  | .ok a, .ok b =>
    if h : a = b then .isTrue (congrArg Except.ok h)
    else .isFalse (fun hc => h (Except.ok.inj hc))
  | .error a, .error b =>
    if h : a = b then .isTrue (congrArg Except.error h)
    else .isFalse (fun hc => h (Except.error.inj hc))
  | .ok _, .error _ => .isFalse (fun hc => Except.noConfusion hc)
  | .error _, .ok _ => .isFalse (fun hc => Except.noConfusion hc)

/-! ## Basic Go-string utilities over `List Char` -/

/-- Model of Go `strings.Split(s, string(sep))` for a single-character
separator: the list of (possibly empty) fields between separators.
Never returns `[]`; splitting the empty string gives `[[]]`. -/
def splitChar (sep : Char) : List Char → List (List Char)
  | [] => [[]]
  | c :: cs =>
    if c = sep then [] :: splitChar sep cs
    else
      match splitChar sep cs with
      | [] => [[c]]
      | p :: ps => (c :: p) :: ps

/-- The characters Go `unicode.IsSpace` recognises in the Latin-1 range;
these are the characters `strings.TrimSpace` trims for ASCII-ish input. -/
def isSpaceChar (c : Char) : Bool :=
  c = ' ' || c = '\t' || c = '\n' || (c = Char.ofNat 11) || (c = Char.ofNat 12) ||
    c = '\r' || (c = Char.ofNat 133) || (c = Char.ofNat 160)

/-- Model of Go `strings.TrimSpace`. -/
def trimSpace (l : List Char) : List Char :=
  ((l.dropWhile isSpaceChar).reverse.dropWhile isSpaceChar).reverse

/-- Drop one trailing carriage return, as `bufio.ScanLines` does to each line. -/
def dropCR (l : List Char) : List Char :=
  if l.getLast? = some '\r' then l.dropLast else l

/-- Model of reading a file line-by-line with `bufio.Scanner` /
`bufio.ScanLines`: split at newlines, drop one trailing `\r` per line, and
do not emit a final empty token after a trailing newline. -/
def scanLines (content : List Char) : List (List Char) :=
  let parts := splitChar '\n' content
  (if parts.getLast? = some [] then parts.dropLast else parts).map dropCR

/-- Model of Go `strings.Index(s, sub)` (first index of a substring, `none`
for Go's `-1`). -/
def idxOfSub : List Char → List Char → Option Nat
  | _, [] => some 0
  | [], _ :: _ => none
  | c :: cs, sub =>
    if sub.isPrefixOf (c :: cs) then some 0
    else (idxOfSub cs sub).map (· + 1)

/-- Fuel-driven worker for `replaceAll`; the fuel is the length of the
string being scanned, which suffices because every step consumes at least
one character. -/
def replaceAllAux (pat rep : List Char) : Nat → List Char → List Char
  | _, [] => []
  | 0, s => s
  | fuel + 1, c :: cs =>
    if pat.isPrefixOf (c :: cs) then
      rep ++ replaceAllAux pat rep fuel ((c :: cs).drop pat.length)
    else
      c :: replaceAllAux pat rep fuel cs

/-- Model of Go `strings.ReplaceAll(s, pat, rep)`: non-overlapping,
left-to-right replacement.  With an empty pattern Go inserts `rep` before
every character and at the end. -/
def replaceAll (s pat rep : List Char) : List Char :=
  if pat.isEmpty then rep ++ (s.map (fun c => c :: rep)).flatten
  else replaceAllAux pat rep s.length s

/-- Strict lexicographic order on char lists by code point; agrees with
Go's byte-wise string `<` because UTF-8 preserves code-point order. -/
def ltL : List Char → List Char → Bool
  | [], [] => false
  | [], _ :: _ => true
  | _ :: _, [] => false
  | a :: as, b :: bs =>
    a.toNat < b.toNat || (a.toNat = b.toNat && ltL as bs)

/-- Non-strict lexicographic order on char lists (Go string `<=`). -/
def leL (a b : List Char) : Bool := !(ltL b a)

/-- Model of Go `sort.Strings`.  Implemented as a structural insertion
sort so that it reduces inside the kernel; since `leL` is an
antisymmetric total order, a sorted permutation of a list is unique, so
this computes the same list as any correct sort, Go's included. -/
def sortStrings (l : List (List Char)) : List (List Char) :=
  l.insertionSort (fun a b => leL a b = true)

/-! ## UTF-8 and SHA-256

`HashBuildContext` feeds `crypto/sha256`; the digest is rendered with
`fmt.Sprintf("%x", sum)` and truncated to 12 characters.  The hash is
implemented executably so that concrete digests can be checked by the
kernel. -/

/-- UTF-8 encoding of a single character. -/
def utf8Char (c : Char) : List UInt8 :=
  let n := c.toNat
  if n < 0x80 then [UInt8.ofNat n]
  else if n < 0x800 then
    [UInt8.ofNat (0xC0 ||| (n >>> 6)), UInt8.ofNat (0x80 ||| (n &&& 0x3F))]
  else if n < 0x10000 then
    [UInt8.ofNat (0xE0 ||| (n >>> 12)), UInt8.ofNat (0x80 ||| ((n >>> 6) &&& 0x3F)),
     UInt8.ofNat (0x80 ||| (n &&& 0x3F))]
  else
    [UInt8.ofNat (0xF0 ||| (n >>> 18)), UInt8.ofNat (0x80 ||| ((n >>> 12) &&& 0x3F)),
     UInt8.ofNat (0x80 ||| ((n >>> 6) &&& 0x3F)), UInt8.ofNat (0x80 ||| (n &&& 0x3F))]

/-- UTF-8 encoding of a char list (the bytes Go sees for the string). -/
def utf8Bytes (s : List Char) : List UInt8 := (s.map utf8Char).flatten

/-- Right rotation of a 32-bit word. -/
def rotr (n : Nat) (x : UInt32) : UInt32 :=
  (x >>> (UInt32.ofNat n)) ||| (x <<< (UInt32.ofNat (32 - n)))

/-- The SHA-256 round constants (in eight groups of eight rounds). -/
def sha256K : List UInt32 :=
  [0x428a2f98, 0x71374491, 0xb5c0fbcf, 0xe9b5dba5, 0x3956c25b, 0x59f111f1, 0x923f82a4, 0xab1c5ed5] ++
  [0xd807aa98, 0x12835b01, 0x243185be, 0x550c7dc3, 0x72be5d74, 0x80deb1fe, 0x9bdc06a7, 0xc19bf174] ++
  [0xe49b69c1, 0xefbe4786, 0x0fc19dc6, 0x240ca1cc, 0x2de92c6f, 0x4a7484aa, 0x5cb0a9dc, 0x76f988da] ++
  [0x983e5152, 0xa831c66d, 0xb00327c8, 0xbf597fc7, 0xc6e00bf3, 0xd5a79147, 0x06ca6351, 0x14292967] ++
  [0x27b70a85, 0x2e1b2138, 0x4d2c6dfc, 0x53380d13, 0x650a7354, 0x766a0abb, 0x81c2c92e, 0x92722c85] ++
  [0xa2bfe8a1, 0xa81a664b, 0xc24b8b70, 0xc76c51a3, 0xd192e819, 0xd6990624, 0xf40e3585, 0x106aa070] ++
  [0x19a4c116, 0x1e376c08, 0x2748774c, 0x34b0bcb5, 0x391c0cb3, 0x4ed8aa4a, 0x5b9cca4f, 0x682e6ff3] ++
  [0x748f82ee, 0x78a5636f, 0x84c87814, 0x8cc70208, 0x90befffa, 0xa4506ceb, 0xbef9a3f7, 0xc67178f2]

/-- The SHA-256 initial hash state. -/
def sha256Init : List UInt32 :=
  [0x6a09e667, 0xbb67ae85, 0x3c6ef372, 0xa54ff53a, 0x510e527f, 0x9b05688c, 0x1f83d9ab, 0x5be0cd19]

/-- Big-endian 32-bit words of a byte list. -/
def toWords : List UInt8 → List UInt32
  | b0 :: b1 :: b2 :: b3 :: rest =>
      (UInt32.ofNat b0.toNat <<< 24 ||| UInt32.ofNat b1.toNat <<< 16 |||
       UInt32.ofNat b2.toNat <<< 8 ||| UInt32.ofNat b3.toNat) :: toWords rest
  | _ => []

/-- Message-schedule extension; the first argument is the number of words
still to append (48 for a full block). -/
def schedExtend : Nat → Array UInt32 → Array UInt32
  | 0, w => w
  | n + 1, w =>
    let i := w.size
    let w15 := w[i - 15]!
    let w2 := w[i - 2]!
    let s0 := rotr 7 w15 ^^^ rotr 18 w15 ^^^ (w15 >>> 3)
    let s1 := rotr 17 w2 ^^^ rotr 19 w2 ^^^ (w2 >>> 10)
    schedExtend n (w.push (w[i - 16]! + s0 + w[i - 7]! + s1))

/-- One SHA-256 compression round, acting on the eight working words. -/
def compressStep (st : List UInt32) (kw : UInt32 × UInt32) : List UInt32 :=
  match st with
  | [a, b, c, d, e, f, g, h] =>
      let s1 := rotr 6 e ^^^ rotr 11 e ^^^ rotr 25 e
      let ch := (e &&& f) ^^^ ((~~~e) &&& g)
      let t1 := h + s1 + ch + kw.1 + kw.2
      let s0 := rotr 2 a ^^^ rotr 13 a ^^^ rotr 22 a
      let maj := (a &&& b) ^^^ (a &&& c) ^^^ (b &&& c)
      let t2 := s0 + maj
      [t1 + t2, a, b, c, d + t1, e, f, g]
  | _ => st

/-- Process one 64-byte block. -/
def processBlock (h0 : List UInt32) (block : List UInt8) : List UInt32 :=
  let w := schedExtend 48 (toWords block).toArray
  let st := (sha256K.zip w.toList).foldl compressStep h0
  (h0.zip st).map fun p => p.1 + p.2

/-- Split into 64-byte blocks; the first argument is recursion fuel (any
value at least the list length works, since every step consumes bytes). -/
def chunks64 : Nat → List UInt8 → List (List UInt8)
  | _, [] => []
  | 0, l => [l]
  | n + 1, l => l.take 64 :: chunks64 n (l.drop 64)

/-- SHA-256 padding: a `0x80` byte, zeros, and the big-endian 64-bit bit
length, to a multiple of 64 bytes. -/
def sha256Pad (msg : List UInt8) : List UInt8 :=
  let len := msg.length
  let padZeros := (55 + 64 - len % 64) % 64
  let bitLen := len * 8
  msg ++ [(0x80 : UInt8)] ++ List.replicate padZeros (0 : UInt8) ++
    (List.range 8).map (fun i => UInt8.ofNat (bitLen >>> ((7 - i) * 8)))

/-- The SHA-256 digest (32 bytes) of a byte list. -/
def sha256 (msg : List UInt8) : List UInt8 :=
  let padded := sha256Pad msg
  let hs := (chunks64 padded.length padded).foldl processBlock sha256Init
  hs.foldr (fun (w : UInt32) acc =>
    UInt8.ofNat (w >>> (24 : UInt32)).toNat :: UInt8.ofNat (w >>> (16 : UInt32)).toNat ::
    UInt8.ofNat (w >>> (8 : UInt32)).toNat :: UInt8.ofNat w.toNat :: acc) []

/-- Lower-case hex digit of a value below 16. -/
def hexDigit (n : Nat) : Char :=
  if n < 10 then Char.ofNat (48 + n) else Char.ofNat (87 + n)

/-- Model of Go `fmt.Sprintf("%x", bytes)`: lower-case hex, two digits per byte. -/
def hexOfBytes (bs : List UInt8) : List Char :=
  bs.foldr (fun b acc => hexDigit (b.toNat / 16) :: hexDigit (b.toNat % 16) :: acc) []

/-! ## Model of Go `path/filepath.Match`

`matchesPattern` delegates wildcard patterns to `filepath.Match` and
discards the error (`matched, _ := filepath.Match(...)`), and Go returns
`matched = false` whenever the pattern is malformed, so a malformed
pattern is modelled as a failed match.  `*` matches any run of
non-separator characters, `?` one non-separator character, `[...]`
a character class (which may match the separator), `\\` escapes. -/

/-- Model of Go `getEsc`: read one (possibly escaped) class character.
Fails on an empty chunk, a leading `-` or `]`, a trailing escape, or when
nothing remains after the character (the class would be unterminated). -/
def getEsc : List Char → Option (Char × List Char)
  | [] => none
  | c :: cs =>
    if c = '-' || c = ']' then none
    else if c = '\\' then
      match cs with
      | [] => none
      | d :: ds => if ds.isEmpty then none else some (d, ds)
    else if cs.isEmpty then none else some (c, cs)

/-- Parse the ranges of a character class against character `r`,
accumulating whether any range matched; models the range loop of Go's
`matchChunk`.  Returns the accumulated match and the pattern after the
closing `]`.  Fuel decreases once per range; the chunk length suffices. -/
def classRanges (r : Char) : Nat → Nat → Bool → List Char → Option (Bool × List Char)
  | 0, _, _, _ => none
  | fuel + 1, nrange, m, ps =>
    match ps with
    | ']' :: rest =>
      if 0 < nrange then some (m, rest) else none
    | _ =>
      match getEsc ps with
      | none => none
      | some (lo, ps1) =>
        match ps1 with
        | '-' :: ps2 =>
          match getEsc ps2 with
          | none => none
          | some (hi, ps3) =>
            classRanges r fuel (nrange + 1) (m || (lo.toNat ≤ r.toNat && r.toNat ≤ hi.toNat)) ps3
        | _ =>
          classRanges r fuel (nrange + 1) (m || (lo.toNat ≤ r.toNat && r.toNat ≤ lo.toNat)) ps1

/-- Parse a full character class (after the opening `[`) against `r`:
optional `^` negation, then the ranges. -/
def parseClass (r : Char) (ps : List Char) : Option (Bool × List Char) :=
  match ps with
  | '^' :: rest =>
    match classRanges r (rest.length + 1) 0 false rest with
    | none => none
    | some (m, after) => some (!m, after)
  | _ =>
    match classRanges r (ps.length + 1) 0 false ps with
    | none => none
    | some (m, after) => some (m, after)

/-- Backtracking matcher equivalent to Go `filepath.Match` on well-formed
patterns (Go's chunk-wise greedy scan matches a chunk at the earliest
possible offset, which for `*`-separated chunks is equivalent to full
backtracking); malformed patterns yield `false`, as the caller observes.
Fuel decreases at every step; pattern length plus string length suffices. -/
def goMatchFuel : Nat → List Char → List Char → Bool
  | 0, _, _ => false
  | fuel + 1, pat, s =>
    match pat with
    | [] => s.isEmpty
    | '*' :: ps =>
      goMatchFuel fuel ps s ||
        (match s with
         | [] => false
         | c :: cs => if c = '/' then false else goMatchFuel fuel ('*' :: ps) cs)
    | '?' :: ps =>
      (match s with
       | [] => false
       | c :: cs => if c = '/' then false else goMatchFuel fuel ps cs)
    | '\\' :: pRest =>
      (match pRest with
       | [] => false
       | pc :: ps =>
         match s with
         | [] => false
         | c :: cs => pc = c && goMatchFuel fuel ps cs)
    | '[' :: pRest =>
      (match s with
       | [] => false
       | c :: cs =>
         match parseClass c pRest with
         | none => false
         | some (ok, ps) => ok && goMatchFuel fuel ps cs)
    | pc :: ps =>
      (match s with
       | [] => false
       | c :: cs => pc = c && goMatchFuel fuel ps cs)

/-- Model of `matched, _ := filepath.Match(pattern, name)`. -/
def goMatch (pat s : List Char) : Bool :=
  goMatchFuel (pat.length + s.length + 1) pat s

/-! ## `internal/build/context.go`: ignore patterns -/

/-- Model of `ContextTarStreamer.matchesPattern`: directory patterns
(trailing `/`), then wildcard patterns via `filepath.Match`, then exact
equality, then bare directory-prefix patterns. -/
def matchesPattern (relPath pat : List Char) : Bool :=
  if pat.getLast? = some '/' then
    let dirPattern := pat.dropLast
    (dirPattern ++ ['/']).isPrefixOf relPath || relPath = dirPattern
  else if pat.contains '*' then
    goMatch pat relPath
  else if relPath = pat then
    true
  else
    (pat ++ ['/']).isPrefixOf relPath

/-- Model of `ContextTarStreamer.shouldIgnore`: first matching pattern wins. -/
def shouldIgnore (relPath : List Char) (patterns : List (List Char)) : Bool :=
  patterns.any (fun pat => matchesPattern relPath pat)

/-- Model of the line-processing loop of
`ContextTarStreamer.loadDockerignore`: scan lines, trim whitespace, skip
lines that are empty or start with `#` after trimming, and collect the
trimmed remainder in file order. -/
def parseDockerignore (content : List Char) : List (List Char) :=
  (scanLines content).filterMap (fun rawLine =>
    if (trimSpace rawLine).isEmpty || (trimSpace rawLine).head? = some '#' then none
    else some (trimSpace rawLine))

/-! ## Tag generation and validation (build tags unit) -/

/-- The `\x7b\x7bstack\x7d\x7d` placeholder. -/
def varStack : List Char := chs ("\x7b\x7bstack\x7d\x7d")

/-- The `\x7b\x7bservice\x7d\x7d` placeholder. -/
def varService : List Char := chs ("\x7b\x7bservice\x7d\x7d")

/-- The `\x7b\x7bhash\x7d\x7d` placeholder. -/
def varHash : List Char := chs ("\x7b\x7bhash\x7d\x7d")

/-- The `\x7b\x7btimestamp\x7d\x7d` placeholder. -/
def varTimestamp : List Char := chs ("\x7b\x7btimestamp\x7d\x7d")

/-- Model of `TagGenerator.GenerateTag`: textual substitution of the four
placeholders into the template; `now` is the wall clock read for the
timestamp placeholder, made an explicit argument. -/
def generateTag (tagFormat stackName serviceName contentHash : List Char) (now : Nat) : List Char :=
  let t := replaceAll tagFormat varStack stackName
  let t := replaceAll t varService serviceName
  let t := replaceAll t varHash contentHash
  replaceAll t varTimestamp (Nat.repr now).data

/-- The errors `TagValidator.ValidateTag` can report, in source order.
`emptyPart` and `partInvalidChar` carry the 1-based part index. -/
inductive TagErr where
  | emptyTag
  | tooLong (n : Nat)
  | invalidChar (c : Char)
  | tooManyParts
  | emptyPart (i : Nat)
  | partInvalidChar (i : Nat) (c : Char)
deriving DecidableEq, Repr

/-- Model of `isValidTagChar`. -/
def isValidTagChar (c : Char) : Bool :=
  ('a' ≤ c && c ≤ 'z') || ('A' ≤ c && c ≤ 'Z') || ('0' ≤ c && c ≤ '9') ||
    c = '-' || c = '_' || c = '.'

/-- The per-part validation loop of `ValidateTag`: an empty part or a part
with a character outside the tag alphabet fails; `i` is the 1-based index
of the first part. -/
def checkParts : Nat → List (List Char) → Except TagErr Unit
  | _, [] => .ok ()
  | i, p :: rest =>
    if p.isEmpty then .error (.emptyPart i)
    else
      match p.find? (fun c => !isValidTagChar c) with
      | some c => .error (.partInvalidChar i c)
      | none => checkParts (i + 1) rest

/-- Model of `TagValidator.ValidateTag`.  Go's `len(tag)` counts bytes, so
the length check measures the UTF-8 encoding. -/
def validateTag (tag : List Char) : Except TagErr Unit :=
  if tag.isEmpty then .error .emptyTag
  else if 128 < (utf8Bytes tag).length then .error (.tooLong (utf8Bytes tag).length)
  else
    match [' ', '\t', '\n', '\r'].find? (fun c => tag.contains c) with
    | some c => .error (.invalidChar c)
    | none =>
      if 2 < (splitChar ':' tag).length then .error .tooManyParts
      else checkParts 1 (splitChar ':' tag)

/-- The errors `TagTemplateValidator.ValidateTagFormat` can report. -/
inductive TagFormatErr where
  | emptyFormat
  | unclosedVar
  | invalidVar (v : List Char)
  | renderedInvalid (e : TagErr)
deriving DecidableEq, Repr

/-- The four recognised template variables, in source order. -/
def validVarNames : List (List Char) := [varStack, varService, varHash, varTimestamp]

/-- The scanning loop of `ValidateTagFormat`: find `\x7b\x7b`, require a
closing `\x7d\x7d` in the remainder, record the token (braces included),
continue after it.  Fuel decreases once per token; every token consumes at
least two characters, so the format length suffices as fuel. -/
def scanVars : Nat → List Char → Except TagFormatErr (List (List Char))
  | 0, _ => .ok []
  | fuel + 1, remaining =>
    match idxOfSub remaining (chs ("\x7b\x7b")) with
    | none => .ok []
    | some start =>
      match idxOfSub (remaining.drop start) (chs ("\x7d\x7d")) with
      | none => .error .unclosedVar
      | some e =>
        match scanVars fuel (remaining.drop (start + e + 2)) with
        | .error err => .error err
        | .ok vs => .ok (((remaining.drop start).take (e + 2)) :: vs)

/-- The sample rendering `ValidateTagFormat` performs before re-validating. -/
def renderTestTag (tagFormat : List Char) : List Char :=
  let t := replaceAll tagFormat varStack (chs ("test-stack"))
  let t := replaceAll t varService (chs ("test-service"))
  let t := replaceAll t varHash (chs ("abc123"))
  replaceAll t varTimestamp (chs ("1234567890"))

/-- Model of `TagTemplateValidator.ValidateTagFormat`. -/
def validateTagFormat (tagFormat : List Char) : Except TagFormatErr Unit :=
  if tagFormat.isEmpty then .error .emptyFormat
  else
    match scanVars tagFormat.length tagFormat with
    | .error e => .error e
    | .ok vars =>
      match vars.find? (fun v => !validVarNames.contains v) with
      | some v => .error (.invalidVar v)
      | none =>
        match validateTag (renderTestTag tagFormat) with
        | .error e => .error (.renderedInvalid e)
        | .ok _ => .ok ()

/-- Model of `GetDefaultTagFormat`. -/
def defaultTagFormat : List Char := chs ("pctl-") ++ varStack ++ chs ("-") ++ varService ++ chs (":") ++ varHash

/-! ## Filesystem model and the content hasher

A build context is a directory tree.  A regular file carries
`some content` when it can be opened and read, `none` when opening it
fails.  Directory entries are listed with their names; `filepath.Walk`
visits them in sorted name order, but since `HashBuildContext` re-sorts
the collected paths the collection below walks entries in list order. -/

/-- A node of the modelled filesystem. -/
inductive FSNode where
  | file (content : Option (List Char))
  | dir (entries : List ((List Char) × FSNode))

/-- First directory entry with the given name (the filesystem guarantees
name uniqueness; on a model with duplicate names the first wins). -/
def findEntry (name : List Char) (es : List ((List Char) × FSNode)) : Option FSNode :=
  match es.find? (fun e => e.1 = name) with
  | some e => some e.2
  | none => none

/-- Resolve a `/`-separated relative path within a node. -/
def lookupPath : FSNode → List (List Char) → Option FSNode
  | node, [] => some node
  | .file _, _ :: _ => none
  | .dir es, n :: rest =>
    match findEntry n es with
    | some child => lookupPath child rest
    | none => none

/-- The components of a relative path. -/
def splitPath (p : List Char) : List (List Char) := splitChar '/' p

/-- Contents of the regular file at a relative path, if it exists and can
be opened (models `os.Open` + `io.Copy` on `filepath.Join(ctx, rel)`). -/
def readFileAt (ctx : FSNode) (rel : List Char) : Option (List Char) :=
  match lookupPath ctx (splitPath rel) with
  | some (.file (some c)) => some c
  | _ => none

/-- Errors of the hashing pipeline, by failure site. -/
inductive HashErr where
  | dockerignoreUnreadable
  | dockerfileReadFailed
  | fileOpenFailed (rel : List Char)
deriving DecidableEq, Repr

/-- Model of `loadDockerignore` applied to the context root: absent file
means no patterns; a present but unopenable file (or a directory, whose
read fails) is an error; otherwise the parsed patterns. -/
def loadIgnoreFS : FSNode → Except HashErr (List (List Char))
  | .dir es =>
    match findEntry (chs (".dockerignore")) es with
    | none => .ok []
    | some (.file none) => .error .dockerignoreUnreadable
    | some (.file (some c)) => .ok (parseDockerignore c)
    | some (.dir _) => .error .dockerignoreUnreadable
  | .file _ => .error .dockerignoreUnreadable

mutual

/-- Walk one node at relative path `rel` (already known not to be ignored),
collecting relative paths of regular files. -/
def collectNode (patterns : List (List Char)) (rel : List Char) : FSNode → List (List Char)
  | .file _ => [rel]
  | .dir es => collectEntries patterns rel es

/-- Walk the entries of a directory whose relative path is `parentRel`
(`[]` for the context root): an ignored directory is skipped with its
whole subtree (`filepath.SkipDir`), an ignored file is skipped. -/
def collectEntries (patterns : List (List Char)) (parentRel : List Char) :
    List ((List Char) × FSNode) → List (List Char)
  | [] => []
  | e :: rest =>
    let rel := if parentRel.isEmpty then e.1 else parentRel ++ '/' :: e.1
    (if shouldIgnore rel patterns then [] else collectNode patterns rel e.2) ++
      collectEntries patterns parentRel rest

end

/-- All non-ignored regular files of the context, as slash-joined relative
paths (the walk of `HashBuildContext`, which skips the root itself). -/
def collectFiles (patterns : List (List Char)) : FSNode → List (List Char)
  | .dir es => collectEntries patterns [] es
  | .file _ => []

/-- The `dockerfileRel` local of `HashBuildContext`: the declared relative
path, defaulted to `Dockerfile` when empty. -/
def dockerfileRel (dockerfilePath : List Char) : List Char :=
  if dockerfilePath.isEmpty then chs ("Dockerfile") else dockerfilePath

/-- The Dockerfile portion of the hash transcript: the
`DOCKERFILE_PATH:` marker and the declared relative path (defaulted to
`Dockerfile`), then — only if the Dockerfile opens — the
`DOCKERFILE_CONTENTS:` marker and its bytes; an open failure is silently
ignored, a read failure (opening a directory) aborts the hash. -/
def dockerfileBlock (ctx : FSNode) (dockerfilePath : List Char) : Except HashErr (List Char) :=
  match lookupPath ctx (splitPath (dockerfileRel dockerfilePath)) with
  | some (.file (some c)) =>
    .ok (chs ("DOCKERFILE_PATH:\n") ++ dockerfileRel dockerfilePath ++
      chs ("\nDOCKERFILE_CONTENTS:\n") ++ c)
  | some (.file none) => .ok (chs ("DOCKERFILE_PATH:\n") ++ dockerfileRel dockerfilePath)
  | some (.dir _) => .error .dockerfileReadFailed
  | none => .ok (chs ("DOCKERFILE_PATH:\n") ++ dockerfileRel dockerfilePath)

/-- Go-map lookup in the modelled build-argument association list. -/
def argValue (k : List Char) (buildArgs : List ((List Char) × (List Char))) : List Char :=
  match buildArgs.find? (fun e => e.1 = k) with
  | some e => e.2
  | none => []

/-- The build-argument portion of the transcript: nothing when the map is
empty, otherwise the `BUILD_ARGS:` marker and `key=value` lines in
lexicographically sorted key order. -/
def argsBlock (buildArgs : List ((List Char) × (List Char))) : List Char :=
  if buildArgs.isEmpty then []
  else
    chs ("\nBUILD_ARGS:\n") ++
      ((sortStrings (buildArgs.map Prod.fst)).map
        (fun k => k ++ '=' :: argValue k buildArgs ++ ['\n'])).flatten

/-- The per-file transcript block: `FILE:` marker, relative path, newline,
raw bytes. -/
def fileBlock (rel content : List Char) : List Char :=
  chs ("FILE:\n") ++ rel ++ '\n' :: content

/-- The file-hashing loop of `HashBuildContext`: extend the transcript
with each file's block in order; a file that cannot be opened aborts. -/
def hashFiles (ctx : FSNode) (acc : List Char) : List (List Char) → Except HashErr (List Char)
  | [] => .ok acc
  | rel :: rest =>
    match readFileAt ctx rel with
    | none => .error (.fileOpenFailed rel)
    | some c => hashFiles ctx (acc ++ fileBlock rel c) rest

/-- The byte transcript `HashBuildContext` feeds to SHA-256 (writes are
modelled by appending; hashing the concatenation is what the incremental
hasher computes). -/
def hashTranscript (ctx : FSNode) (dockerfilePath : List Char)
    (buildArgs : List ((List Char) × (List Char))) : Except HashErr (List Char) := do
  let patterns ← loadIgnoreFS ctx
  let dfPart ← dockerfileBlock ctx dockerfilePath
  let files := sortStrings (collectFiles patterns ctx)
  hashFiles ctx (dfPart ++ argsBlock buildArgs) files

/-- Model of `ContentHasher.HashBuildContext`: the first 12 characters of
the lower-case hex SHA-256 digest of the transcript. -/
def hashBuildContext (ctx : FSNode) (dockerfilePath : List Char)
    (buildArgs : List ((List Char) × (List Char))) : Except HashErr (List Char) :=
  (hashTranscript ctx dockerfilePath buildArgs).map
    (fun t => (hexOfBytes (sha256 (utf8Bytes t))).take 12)

/-- Restatement of the hashing contract in the spec's phrasing (claim C2):
after the Dockerfile and argument sections, the digest covers, for each
non-ignored regular file in lexicographic path order, a marker, the path
and the raw bytes — all files read upfront, the first unreadable one
(in that order) fatal; the result is the first 12 hex characters of the
final digest. -/
def specHashBuildContext (ctx : FSNode) (dockerfilePath : List Char)
    (buildArgs : List ((List Char) × (List Char))) : Except HashErr (List Char) := do
  let patterns ← loadIgnoreFS ctx
  let dfPart ← dockerfileBlock ctx dockerfilePath
  let files := sortStrings (collectFiles patterns ctx)
  match files.find? (fun rel => (readFileAt ctx rel).isNone) with
  | some rel => .error (.fileOpenFailed rel)
  | none =>
    .ok ((hexOfBytes (sha256 (utf8Bytes
      (dfPart ++ argsBlock buildArgs ++
        (files.map (fun rel => fileBlock rel ((readFileAt ctx rel).getD []))).flatten)))).take 12)

/-! ## The build orchestrator (`internal/build/orchestrator.go`)

The Portainer client and the local `docker buildx` process are the
orchestrator's effectful dependencies; they are modelled as response
functions keyed by the image tag, and every call the orchestrator issues
is recorded as an event, so that "no build call is issued" is a statement
about the event list.  Per-service goroutines all run to completion and
their results arrive on a channel in a nondeterministic order; this is
modelled by aggregating over an arbitrary permutation of the per-service
results. -/

/-- Opaque error tokens returned by the modelled external calls. -/
inductive ClientErr where
  | err (n : Nat)
deriving DecidableEq, Repr

/-- The orchestrator's external world: the Remote Build Client's calls
used per service, plus the local `docker buildx` execution of load mode. -/
structure BuildEnv where
  imageExists : List Char → Except ClientErr Bool
  buildImage : List Char → Except ClientErr Unit
  loadImage : List Char → Except ClientErr Unit
  localBuild : List Char → Except ClientErr Unit

/-- Events recorded for external interactions of one service's build. -/
inductive CallEvent where
  | existsCheck (tag : List Char)
  | warnExistsCheckFailed (serviceName : List Char)
  | remoteBuildCall (tag : List Char)
  | localBuildCall (tag : List Char)
  | loadImageCall (tag : List Char)
deriving DecidableEq, Repr

/-- Model of `compose.ServiceBuildInfo` (the context resolved to a tree). -/
structure ServiceBuildInfo where
  serviceName : List Char
  contextTree : FSNode
  dockerfile : List Char
  args : List ((List Char) × (List Char))
  target : List Char

/-- The `config.BuildModeRemoteBuild` constant. -/
def modeRemoteBuild : List Char := chs ("remote-build")

/-- The `config.BuildModeLoad` constant. -/
def modeLoad : List Char := chs ("load")

/-- Model of `config.BuildConfig` (the fields the orchestrator reads per
service; parallelism and the warn threshold do not affect per-service
results). -/
structure BuildConfig where
  mode : List Char
  tagFormat : List Char
  forceBuild : Bool
  extraBuildArgs : List ((List Char) × (List Char))

/-- The reasons a single service's build can fail, by failure site. -/
inductive BuildFailure where
  | hashFailed (e : HashErr)
  | contextTarFailed (e : HashErr)
  | remoteBuildFailed (e : ClientErr)
  | loadFailed (e : ClientErr)
  | unsupportedMode (mode : List Char)
deriving DecidableEq, Repr

/-- Model of `build.BuildResult` (the error field is structured). -/
structure BuildResult where
  serviceName : List Char
  imageTag : List Char
  success : Bool
  error : Option BuildFailure
deriving DecidableEq, Repr

/-- The validation `CreateTarStream` performs before streaming: the
context must be a directory and its `.dockerignore` must load. -/
def createTarCheck (ctx : FSNode) : Except HashErr Unit :=
  match ctx with
  | .file _ => .error .dockerignoreUnreadable
  | .dir _ =>
    match loadIgnoreFS ctx with
    | .error e => .error e
    | .ok _ => .ok ()

/-- The strategy phase of `buildService` (after the skip decision):
dispatch on the configured mode to `buildRemote` or `buildLocal`, any
other mode failing immediately.  In load mode a failing local build
surfaces through the load call, as the piped tar stream propagates the
`docker buildx` error into `LoadImage`. -/
def buildPhase (world : BuildEnv) (cfg : BuildConfig) (svc : ServiceBuildInfo)
    (imageTag : List Char) : BuildResult × List CallEvent :=
  if cfg.mode = modeRemoteBuild then
    match createTarCheck svc.contextTree with
    | .error e => (⟨svc.serviceName, [], false, some (.contextTarFailed e)⟩, [])
    | .ok _ =>
      match world.buildImage imageTag with
      | .ok _ => (⟨svc.serviceName, imageTag, true, none⟩, [.remoteBuildCall imageTag])
      | .error e => (⟨svc.serviceName, [], false, some (.remoteBuildFailed e)⟩, [.remoteBuildCall imageTag])
  else if cfg.mode = modeLoad then
    match (world.localBuild imageTag).bind (fun _ => world.loadImage imageTag) with
    | .ok _ => (⟨svc.serviceName, imageTag, true, none⟩, [.localBuildCall imageTag, .loadImageCall imageTag])
    | .error e => (⟨svc.serviceName, [], false, some (.loadFailed e)⟩, [.localBuildCall imageTag, .loadImageCall imageTag])
  else
    (⟨svc.serviceName, [], false, some (.unsupportedMode cfg.mode)⟩, [])

/-- Model of `BuildOrchestrator.buildService`: hash the context, derive
the tag, and unless `ForceBuild` is set ask whether the image exists —
an affirmative answer short-circuits to a successful, build-free result,
an errored check only logs a warning and proceeds as if it answered no. -/
def buildService (world : BuildEnv) (cfg : BuildConfig) (stackName : List Char) (now : Nat)
    (svc : ServiceBuildInfo) : BuildResult × List CallEvent :=
  match hashBuildContext svc.contextTree svc.dockerfile svc.args with
  | .error e => (⟨svc.serviceName, [], false, some (.hashFailed e)⟩, [])
  | .ok contentHash =>
    let imageTag := generateTag cfg.tagFormat stackName svc.serviceName contentHash now
    if cfg.forceBuild then
      buildPhase world cfg svc imageTag
    else
      match world.imageExists imageTag with
      | .error _ =>
        let r := buildPhase world cfg svc imageTag
        (r.1, .existsCheck imageTag :: .warnExistsCheckFailed svc.serviceName :: r.2)
      | .ok true => (⟨svc.serviceName, imageTag, true, none⟩, [.existsCheck imageTag])
      | .ok false =>
        let r := buildPhase world cfg svc imageTag
        (r.1, .existsCheck imageTag :: r.2)

/-- The aggregate error of `BuildServices`: the number of failed services
and the first failure collected (Go formats it as
`build failed for %d service(s): %v` with `buildErrors[0]`, which wraps
the failing service's name and underlying error). -/
inductive AggError where
  | buildFailed (failedCount : Nat) (first : BuildResult)
deriving DecidableEq, Repr

/-- The result-collection loop of `BuildServices`: successful results
contribute their tag to the map, failures are collected; any failure
discards the map. -/
def collectResults (results : List BuildResult) :
    Except AggError (List ((List Char) × (List Char))) :=
  match results.filter (fun r => !r.success) with
  | [] =>
    .ok (results.filterMap (fun r => if r.success then some (r.serviceName, r.imageTag) else none))
  | e :: _ => .error (.buildFailed (results.filter (fun r => !r.success)).length e)

/-- Model of `BuildOrchestrator.BuildServices`: empty input returns an
empty map at once; otherwise one task per service runs to completion and
the results are collected in channel-arrival order, which is an arbitrary
permutation of the per-service results (`arrival`). -/
def buildServicesFrom (build : ServiceBuildInfo → BuildResult)
    (services arrival : List ServiceBuildInfo) :
    Except AggError (List ((List Char) × (List Char))) :=
  if services.isEmpty then .ok []
  else collectResults (arrival.map build)

/-! ## Concrete sample data used to exercise the theorems -/

/-- A one-file build context: a readable `Dockerfile`. -/
def ctxSample : FSNode :=
  .dir [(chs ("Dockerfile"), .file (some (chs ("FROM scratch\n"))))]

/-- The content hash of `ctxSample` (checked by the kernel below). -/
def hashSample : List Char := chs ("3b7e8b54a4c0")

/-- A remote-build configuration without force. -/
def cfgSample : BuildConfig := ⟨modeRemoteBuild, defaultTagFormat, false, []⟩

/-- A service over `ctxSample`. -/
def svcSample : ServiceBuildInfo := ⟨chs ("web"), ctxSample, [], [], []⟩

/-- A world whose existence check always answers yes. -/
def worldExists : BuildEnv :=
  ⟨fun _ => .ok true, fun _ => .ok (), fun _ => .ok (), fun _ => .ok ()⟩

/-- A world whose existence check always fails. -/
def worldCheckErr : BuildEnv :=
  ⟨fun _ => .error (.err 7), fun _ => .ok (), fun _ => .ok (), fun _ => .ok ()⟩

/-- A per-service build outcome that always fails (for the aggregation
witness). -/
def buildAlwaysFail (s : ServiceBuildInfo) : BuildResult :=
  ⟨s.serviceName, [], false, some (.unsupportedMode [])⟩

/-! ## Lemmas about the lexicographic order and `sortStrings` -/

theorem charToNat_inj {a b : Char} (h : a.toNat = b.toNat) : a = b :=
  Char.ext (UInt32.ext h)

theorem ltL_irrefl : ∀ a : List Char, ltL a a = false
  | [] => rfl
  | c :: cs => by simp [ltL, ltL_irrefl cs]

theorem ltL_trans : ∀ a b c : List Char, ltL a b = true → ltL b c = true → ltL a c = true
  | [], [], _, h1, _ => by simp [ltL] at h1
  | [], _ :: _, [], _, h2 => by simp [ltL] at h2
  | [], _ :: _, _ :: _, _, _ => by simp [ltL]
  | _ :: _, [], _, h1, _ => by simp [ltL] at h1
  | _ :: _, _ :: _, [], _, h2 => by simp [ltL] at h2
  | x :: xs, y :: ys, z :: zs, h1, h2 => by
    simp only [ltL, Bool.or_eq_true, Bool.and_eq_true, decide_eq_true_eq] at h1 h2 ⊢
    rcases h1 with h1 | ⟨he1, hl1⟩
    · rcases h2 with h2 | ⟨he2, hl2⟩
      · exact Or.inl (Nat.lt_trans h1 h2)
      · exact Or.inl (by omega)
    · rcases h2 with h2 | ⟨he2, hl2⟩
      · exact Or.inl (by omega)
      · exact Or.inr ⟨he1.trans he2, ltL_trans xs ys zs hl1 hl2⟩

theorem eq_of_ltL_false : ∀ a b : List Char, ltL a b = false → ltL b a = false → a = b
  | [], [], _, _ => rfl
  | [], _ :: _, h1, _ => by simp [ltL] at h1
  | _ :: _, [], _, h2 => by simp [ltL] at h2
  | x :: xs, y :: ys, h1, h2 => by
    simp only [ltL, Bool.or_eq_false_iff, Bool.and_eq_false_iff, decide_eq_false_iff_not,
      decide_eq_true_eq] at h1 h2
    have hxy : x.toNat = y.toNat := by omega
    have htail : xs = ys := by
      rcases h1.2 with h | h
      · exact absurd hxy h
      · rcases h2.2 with h' | h'
        · exact absurd hxy.symm h'
        · exact eq_of_ltL_false xs ys h h'
    rw [charToNat_inj hxy, htail]

theorem ltL_asymm {a b : List Char} (h : ltL a b = true) : ltL b a = false := by
  cases hba : ltL b a
  · rfl
  · have := ltL_trans a b a h hba
    rw [ltL_irrefl] at this
    exact absurd this (by simp)

theorem leL_trans (a b c : List Char) (h1 : leL a b = true) (h2 : leL b c = true) :
    leL a c = true := by
  simp only [leL, Bool.not_eq_true'] at h1 h2 ⊢
  cases hca : ltL c a
  · rfl
  · cases hab : ltL a b
    · rw [eq_of_ltL_false a b hab h1] at hca
      exact hca.symm.trans h2
    · have := ltL_trans c a b hca hab
      exact absurd this (by simp [h2])

theorem leL_total (a b : List Char) : leL a b || leL b a := by
  simp only [leL, Bool.or_eq_true, Bool.not_eq_true']
  cases hab : ltL a b
  · exact Or.inr rfl
  · exact Or.inl (ltL_asymm hab)

theorem leL_antisymm {a b : List Char} (h1 : leL a b = true) (h2 : leL b a = true) : a = b := by
  simp only [leL, Bool.not_eq_true'] at h1 h2
  exact eq_of_ltL_false a b h2 h1

theorem sortStrings_sorted (l : List (List Char)) :
    List.Pairwise (fun a b => leL a b = true) (sortStrings l) := by
  haveI : IsTotal (List Char) (fun a b => leL a b = true) :=
    ⟨fun a b => by
      rcases Bool.or_eq_true _ _ |>.mp (leL_total a b) with h | h
      · exact Or.inl h
      · exact Or.inr h⟩
  haveI : IsTrans (List Char) (fun a b => leL a b = true) :=
    ⟨fun a b c => leL_trans a b c⟩
  exact List.sorted_insertionSort _ l

theorem sortStrings_perm (l : List (List Char)) : (sortStrings l).Perm l :=
  List.perm_insertionSort _ l

theorem sortStrings_eq_of_perm {l1 l2 : List (List Char)} (h : l1.Perm l2) :
    sortStrings l1 = sortStrings l2 := by
  haveI : IsAntisymm (List Char) (fun a b => leL a b = true) :=
    ⟨fun _ _ h1 h2 => leL_antisymm h1 h2⟩
  exact List.eq_of_perm_of_sorted
    ((sortStrings_perm l1).trans (h.trans (sortStrings_perm l2).symm))
    (sortStrings_sorted l1) (sortStrings_sorted l2)

/-! ## Lemmas about `splitChar` -/

theorem splitChar_ne_nil (sep : Char) : ∀ l : List Char, splitChar sep l ≠ []
  | [] => by simp [splitChar]
  | c :: cs => by
    unfold splitChar
    by_cases h : c = sep
    · simp [h]
    · simp only [h, if_false]
      cases splitChar sep cs <;> simp

theorem splitChar_length (sep : Char) :
    ∀ l : List Char, (splitChar sep l).length = l.count sep + 1
  | [] => by simp [splitChar]
  | c :: cs => by
    unfold splitChar
    by_cases h : c = sep
    · simp [h, List.count_cons, splitChar_length sep cs]
    · simp only [h, if_false, List.count_cons]
      cases hs : splitChar sep cs with
      | nil => exact absurd hs (splitChar_ne_nil sep cs)
      | cons p ps =>
        have := splitChar_length sep cs
        rw [hs] at this
        simp only [List.length_cons] at this ⊢
        simp [this, h, Ne.symm h, beq_iff_eq]

theorem mem_splitChar_of_mem (sep : Char) :
    ∀ (l : List Char) (c : Char), c ∈ l → c ≠ sep → ∃ p ∈ splitChar sep l, c ∈ p
  | [], c, hc, _ => absurd hc (List.not_mem_nil c)
  | d :: ds, c, hc, hne => by
    unfold splitChar
    by_cases hd : d = sep
    · rw [if_pos hd]
      have hcd : c ∈ ds := by
        rcases List.mem_cons.mp hc with h | h
        · exact absurd (h.trans hd) hne
        · exact h
      obtain ⟨p, hp, hcp⟩ := mem_splitChar_of_mem sep ds c hcd hne
      exact ⟨p, List.mem_cons_of_mem _ hp, hcp⟩
    · rw [if_neg hd]
      cases hs : splitChar sep ds with
      | nil => exact absurd hs (splitChar_ne_nil sep ds)
      | cons p ps =>
        rcases List.mem_cons.mp hc with h | h
        · exact ⟨d :: p, by simp, by simp [h]⟩
        · obtain ⟨q, hq, hcq⟩ := mem_splitChar_of_mem sep ds c h hne
          rw [hs] at hq
          rcases List.mem_cons.mp hq with rfl | hq'
          · exact ⟨d :: q, by simp, by simp [hcq]⟩
          · exact ⟨q, by simp [hq'], hcq⟩

theorem splitChar_eq_singleton (sep : Char) :
    ∀ l : List Char, splitChar sep l = [[]] → l = []
  | [], _ => rfl
  | c :: cs, h => by
    unfold splitChar at h
    by_cases hc : c = sep
    · simp only [hc, if_true] at h
      have : splitChar sep cs = [] := by
        injection h with _ h2
      exact absurd this (splitChar_ne_nil sep cs)
    · simp only [hc, if_false] at h
      cases hs : splitChar sep cs with
      | nil => exact absurd hs (splitChar_ne_nil sep cs)
      | cons p ps =>
        rw [hs] at h
        injection h with h1 _
        exact absurd h1 (by simp)

theorem getLast?_splitChar (sep : Char) :
    ∀ l : List Char, l.getLast? = some sep → (splitChar sep l).getLast? = some []
  | [], h => by simp at h
  | [c], h => by
    simp only [List.getLast?_singleton, Option.some_inj] at h
    subst h
    simp [splitChar]
  | c :: d :: ds, h => by
    rw [List.getLast?_cons_cons] at h
    have ih := getLast?_splitChar sep (d :: ds) h
    unfold splitChar
    by_cases hc : c = sep
    · simp only [hc, if_true]
      cases hs : splitChar sep (d :: ds) with
      | nil => exact absurd hs (splitChar_ne_nil sep (d :: ds))
      | cons p ps =>
        rw [hs] at ih
        rw [List.getLast?_cons_cons]
        exact ih
    · simp only [hc, if_false]
      cases hs : splitChar sep (d :: ds) with
      | nil => exact absurd hs (splitChar_ne_nil sep (d :: ds))
      | cons p ps =>
        cases ps with
        | nil =>
          rw [hs] at ih
          simp only [List.getLast?_singleton, Option.some_inj] at ih
          subst ih
          exact absurd (splitChar_eq_singleton sep (d :: ds) hs) (by simp)
        | cons q qs =>
          rw [hs] at ih
          rw [List.getLast?_cons_cons] at ih
          show ((c :: p) :: q :: qs).getLast? = some []
          rw [List.getLast?_cons_cons]
          exact ih

/-! ## Lemmas about tag validation -/

theorem checkParts_error_of_bad :
    ∀ (i : Nat) (parts : List (List Char)),
      (∃ p ∈ parts, p = [] ∨ ∃ c ∈ p, isValidTagChar c = false) →
      ∃ e, checkParts i parts = .error e
  | i, [], h => by simp at h
  | i, p :: rest, h => by
    unfold checkParts
    by_cases hp : p.isEmpty
    · exact ⟨.emptyPart i, by simp [hp]⟩
    · simp only [hp, if_false]
      cases hf : p.find? (fun c => !isValidTagChar c) with
      | some c => exact ⟨.partInvalidChar i c, rfl⟩
      | none =>
        have hall := List.find?_eq_none.mp hf
        rcases h with ⟨q, hq, hbad⟩
        rcases List.mem_cons.mp hq with rfl | hq'
        · rcases hbad with rfl | ⟨c, hc, hcv⟩
          · exact (hp (by simp)).elim
          · have := hall c hc
            simp only [Bool.not_eq_true', Bool.not_eq_true] at this
            exact absurd this (by simp [hcv])
        · exact checkParts_error_of_bad (i + 1) rest ⟨q, hq', hbad⟩

/-! ## Lemmas about the hasher -/

theorem hashFiles_eq_spec (ctx : FSNode) :
    ∀ (files : List (List Char)) (acc : List Char),
      hashFiles ctx acc files =
        match files.find? (fun rel => (readFileAt ctx rel).isNone) with
        | some rel => .error (.fileOpenFailed rel)
        | none =>
          .ok (acc ++ (files.map (fun rel => fileBlock rel ((readFileAt ctx rel).getD []))).flatten)
  | [], acc => by simp [hashFiles]
  | rel :: rest, acc => by
    cases hr : readFileAt ctx rel with
    | none =>
      simp [hashFiles, hr, List.find?_cons]
    | some c =>
      have ih := hashFiles_eq_spec ctx rest (acc ++ fileBlock rel c)
      simp only [hashFiles, hr, List.find?_cons, Option.isNone_some, List.map_cons,
        List.flatten_cons, Option.getD_some]
      rw [ih]
      cases hf : rest.find? (fun r => (readFileAt ctx r).isNone) <;>
        simp [List.append_assoc]

/-- C2: `HashBuildContext` computes exactly the digest described by the
spec: Dockerfile marker and path, Dockerfile bytes if readable, the sorted
`key=value` argument block when non-empty, then per non-ignored regular
file in lexicographic path order a marker, the path and the raw bytes,
truncated to the first 12 hex characters — with an unreadable file fatal
rather than skipped. -/
theorem claim_C2_hashBuildContext_structure (ctx : FSNode) (df : List Char)
    (args : List ((List Char) × (List Char))) :
    hashBuildContext ctx df args = specHashBuildContext ctx df args := by
  unfold hashBuildContext hashTranscript specHashBuildContext
  cases hL : loadIgnoreFS ctx with
  | error e => simp [hL, Except.map, Except.bind, bind]
  | ok patterns =>
    cases hD : dockerfileBlock ctx df with
    | error e => simp [hL, hD, Except.map, Except.bind, bind]
    | ok dfPart =>
      simp only [hL, hD, Except.map, Except.bind, bind]
      rw [hashFiles_eq_spec]
      cases hf : (sortStrings (collectFiles patterns ctx)).find?
          (fun rel => (readFileAt ctx rel).isNone) <;> simp

/-! ## Permutation lemmas for the context tree (claim C3) -/

theorem findEntry_cons_pos {x : (List Char) × FSNode} {es : List ((List Char) × FSNode)}
    {n : List Char} (h : x.1 = n) : findEntry n (x :: es) = some x.2 := by
  simp [findEntry, List.find?_cons_of_pos, h]

theorem findEntry_cons_neg {x : (List Char) × FSNode} {es : List ((List Char) × FSNode)}
    {n : List Char} (h : ¬x.1 = n) : findEntry n (x :: es) = findEntry n es := by
  unfold findEntry
  rw [List.find?_cons_of_neg _ (by simp [h])]

theorem findEntry_perm {es es' : List ((List Char) × FSNode)} (h : es.Perm es') :
    (es.map Prod.fst).Nodup → ∀ n, findEntry n es = findEntry n es' := by
  induction h with
  | nil => exact fun _ _ => rfl
  | cons x h ih =>
    intro hnd n
    have htl := by
      simp only [List.map_cons, List.nodup_cons] at hnd
      exact hnd.2
    by_cases hd : x.1 = n
    · rw [findEntry_cons_pos hd, findEntry_cons_pos hd]
    · rw [findEntry_cons_neg hd, findEntry_cons_neg hd]
      exact ih htl n
  | swap x y l =>
    intro hnd n
    have hxy : y.1 ≠ x.1 := by
      simp only [List.map_cons, List.nodup_cons, List.mem_cons] at hnd
      exact fun hEq => hnd.1 (Or.inl hEq)
    by_cases hdy : y.1 = n <;> by_cases hdx : x.1 = n
    · exact absurd (hdy.trans hdx.symm) hxy
    · rw [findEntry_cons_pos hdy, findEntry_cons_neg hdx, findEntry_cons_pos hdy]
    · rw [findEntry_cons_neg hdy, findEntry_cons_pos hdx, findEntry_cons_pos hdx]
    · rw [findEntry_cons_neg hdy, findEntry_cons_neg hdx, findEntry_cons_neg hdx,
        findEntry_cons_neg hdy]
  | trans h1 h2 ih1 ih2 =>
    intro hnd n
    exact (ih1 hnd n).trans (ih2 ((h1.map Prod.fst).nodup hnd) n)

theorem lookupPath_dir_congr {es es' : List ((List Char) × FSNode)}
    (hfe : ∀ n, findEntry n es = findEntry n es') (n : List Char) (rest : List (List Char)) :
    lookupPath (.dir es) (n :: rest) = lookupPath (.dir es') (n :: rest) := by
  unfold lookupPath
  rw [hfe n]

theorem readFileAt_dir_congr {es es' : List ((List Char) × FSNode)}
    (hfe : ∀ n, findEntry n es = findEntry n es') (rel : List Char) :
    readFileAt (.dir es) rel = readFileAt (.dir es') rel := by
  unfold readFileAt splitPath
  cases hs : splitChar '/' rel with
  | nil => exact absurd hs (splitChar_ne_nil '/' rel)
  | cons n rest => rw [lookupPath_dir_congr hfe n rest]

theorem dockerfileBlock_dir_congr {es es' : List ((List Char) × FSNode)}
    (hfe : ∀ n, findEntry n es = findEntry n es') (df : List Char) :
    dockerfileBlock (.dir es) df = dockerfileBlock (.dir es') df := by
  unfold dockerfileBlock splitPath
  cases hs : splitChar '/' (dockerfileRel df) with
  | nil => exact absurd hs (splitChar_ne_nil '/' _)
  | cons n rest => rw [lookupPath_dir_congr hfe n rest]

theorem loadIgnoreFS_dir (es : List ((List Char) × FSNode)) :
    loadIgnoreFS (.dir es) =
      match findEntry (chs (".dockerignore")) es with
      | none => .ok []
      | some (.file none) => .error .dockerignoreUnreadable
      | some (.file (some c)) => .ok (parseDockerignore c)
      | some (.dir _) => .error .dockerignoreUnreadable := rfl

theorem loadIgnoreFS_perm {es es' : List ((List Char) × FSNode)}
    (hfe : ∀ n, findEntry n es = findEntry n es') :
    loadIgnoreFS (.dir es) = loadIgnoreFS (.dir es') := by
  rw [loadIgnoreFS_dir, loadIgnoreFS_dir, hfe]

theorem collectEntries_cons (patterns : List (List Char)) (pre : List Char)
    (e : (List Char) × FSNode) (rest : List ((List Char) × FSNode)) :
    collectEntries patterns pre (e :: rest) =
      (if shouldIgnore (if pre.isEmpty then e.1 else pre ++ '/' :: e.1) patterns then []
       else collectNode patterns (if pre.isEmpty then e.1 else pre ++ '/' :: e.1) e.2) ++
        collectEntries patterns pre rest := rfl

theorem perm_append_swap (a b r : List (List Char)) :
    (a ++ (b ++ r)).Perm (b ++ (a ++ r)) := by
  rw [← List.append_assoc, ← List.append_assoc]
  exact List.Perm.append_right r List.perm_append_comm

theorem collectEntries_perm (patterns : List (List Char)) (pre : List Char)
    {es es' : List ((List Char) × FSNode)} (h : es.Perm es') :
    (collectEntries patterns pre es).Perm (collectEntries patterns pre es') := by
  induction h with
  | nil => exact List.Perm.refl _
  | cons x h ih =>
    rw [collectEntries_cons, collectEntries_cons]
    exact List.Perm.append_left _ ih
  | swap x y l =>
    rw [collectEntries_cons, collectEntries_cons, collectEntries_cons, collectEntries_cons]
    exact perm_append_swap _ _ _
  | trans h1 h2 ih1 ih2 => exact ih1.trans ih2

theorem hashFiles_congr {c1 c2 : FSNode} (h : ∀ rel, readFileAt c1 rel = readFileAt c2 rel) :
    ∀ (files : List (List Char)) (acc : List Char),
      hashFiles c1 acc files = hashFiles c2 acc files
  | [], acc => rfl
  | rel :: rest, acc => by
    unfold hashFiles
    rw [h rel]
    cases readFileAt c2 rel with
    | none => rfl
    | some c => exact hashFiles_congr h rest (acc ++ fileBlock rel c)

/-- C3 (amended): the digest is invariant under the on-disk order of the
context's directory entries — two roots whose entry lists are permutations
of one another (with distinct names, as a real directory guarantees) hash
identically, for every Dockerfile path and argument map. -/
theorem claim_C3_amended_order_independence
    {es es' : List ((List Char) × FSNode)} (hperm : es.Perm es')
    (hnodup : (es.map Prod.fst).Nodup) (df : List Char)
    (args : List ((List Char) × (List Char))) :
    hashBuildContext (.dir es) df args = hashBuildContext (.dir es') df args := by
  have hfe : ∀ n, findEntry n es = findEntry n es' := findEntry_perm hperm hnodup
  have hrf : ∀ rel, readFileAt (.dir es) rel = readFileAt (.dir es') rel :=
    readFileAt_dir_congr hfe
  unfold hashBuildContext
  congr 1
  unfold hashTranscript
  rw [loadIgnoreFS_perm hfe]
  cases hL : loadIgnoreFS (.dir es') with
  | error e => rfl
  | ok patterns =>
    simp only [Except.bind, bind]
    rw [dockerfileBlock_dir_congr hfe df]
    cases hD : dockerfileBlock (.dir es') df with
    | error e => rfl
    | ok dfPart =>
      have hcoll : sortStrings (collectFiles patterns (.dir es)) =
          sortStrings (collectFiles patterns (.dir es')) :=
        sortStrings_eq_of_perm (collectEntries_perm patterns [] hperm)
      unfold collectFiles at hcoll
      rw [show collectFiles patterns (.dir es) = collectEntries patterns [] es from rfl,
        show collectFiles patterns (.dir es') = collectEntries patterns [] es' from rfl]
      rw [hcoll]
      exact hashFiles_congr hrf _ _

/-- C3 (counterexample to sensitivity): two one-directory contexts that
differ in the set of files and in the bytes of file `a`, yet hash to the
same digest, because file bytes are fed to the hash without a length
delimiter and can therefore impersonate a sibling's marker block. -/
theorem claim_C3_counterexample :
    hashBuildContext (.dir [(chs ("a"), .file (some (chs ("xFILE:\nb\nY"))))]) (chs ("D")) [] =
      hashBuildContext
        (.dir [(chs ("a"), .file (some (chs ("x")))), (chs ("b"), .file (some (chs ("Y"))))])
        (chs ("D")) [] ∧
    readFileAt (.dir [(chs ("a"), .file (some (chs ("xFILE:\nb\nY"))))]) (chs ("a")) ≠
      readFileAt
        (.dir [(chs ("a"), .file (some (chs ("x")))), (chs ("b"), .file (some (chs ("Y"))))])
        (chs ("a")) ∧
    collectFiles [] (.dir [(chs ("a"), .file (some (chs ("xFILE:\nb\nY"))))]) ≠
      collectFiles []
        (.dir [(chs ("a"), .file (some (chs ("x")))), (chs ("b"), .file (some (chs ("Y"))))]) := by
  refine ⟨?_, by decide, by decide⟩
  unfold hashBuildContext
  rw [show hashTranscript (.dir [(chs ("a"), .file (some (chs ("xFILE:\nb\nY"))))])
        (chs ("D")) [] =
      hashTranscript
        (.dir [(chs ("a"), .file (some (chs ("x")))), (chs ("b"), .file (some (chs ("Y"))))])
        (chs ("D")) [] from by decide]

/-! ## Claim C5: ignore-pattern matching -/

/-- C5: `matchesPattern` applies, in this precedence, (a) trailing-slash
directory patterns as whole-subtree exclusions, (b) wildcard patterns via
shell glob over the full relative path with `*` not crossing `/`, (c)
exact equality, and (d) bare directory-prefix matching — together with the
concrete examples named by the spec. -/
theorem claim_C5_ignore_pattern_rules :
    (∀ rel pat : List Char, pat.getLast? = some '/' →
      matchesPattern rel pat =
        ((pat.dropLast ++ ['/']).isPrefixOf rel || rel = pat.dropLast)) ∧
    (∀ rel pat : List Char, pat.getLast? ≠ some '/' → pat.contains '*' = true →
      matchesPattern rel pat = goMatch pat rel) ∧
    (∀ rel pat : List Char, pat.getLast? ≠ some '/' → pat.contains '*' = false →
      matchesPattern rel pat = (rel = pat || (pat ++ ['/']).isPrefixOf rel)) ∧
    (∀ (rel : List Char) (pats : List (List Char)),
      shouldIgnore rel pats = pats.any (matchesPattern rel)) ∧
    matchesPattern (chs ("app.log")) (chs ("*.log")) = true ∧
    matchesPattern (chs ("sub/app.log")) (chs ("*.log")) = false ∧
    matchesPattern (chs ("node_modules/pkg/index.js")) (chs ("node_modules/")) = true ∧
    matchesPattern (chs ("temp")) (chs ("temp")) = true ∧
    matchesPattern (chs ("temp/file.txt")) (chs ("temp")) = true ∧
    goMatch (chs ("*")) (chs ("a/b")) = false := by
  refine ⟨?_, ?_, ?_, fun _ _ => rfl, by decide, by decide, by decide, by decide, by decide,
    by decide⟩
  · intro rel pat h
    simp [matchesPattern, h]
  · intro rel pat h1 h2
    unfold matchesPattern
    rw [if_neg h1, if_pos h2]
  · intro rel pat h1 h2
    unfold matchesPattern
    rw [if_neg h1, if_neg (by rw [h2]; simp)]
    by_cases he : rel = pat
    · rw [if_pos he]
      simp [he]
    · rw [if_neg he]
      simp [he]

/-- Witness for C5: the directory rule applied at the spec's example. -/
theorem claim_C5_witness :
    matchesPattern (chs ("node_modules/pkg/index.js")) (chs ("node_modules/")) =
      (((chs ("node_modules/")).dropLast ++ ['/']).isPrefixOf (chs ("node_modules/pkg/index.js")) ||
        chs ("node_modules/pkg/index.js") = (chs ("node_modules/")).dropLast) :=
  claim_C5_ignore_pattern_rules.1 (chs ("node_modules/pkg/index.js")) (chs ("node_modules/"))
    (by decide)

/-! ## Claim C6 and C10: tag validation -/

/-- C6: `ValidateTag` errors on the empty tag, a byte length above 128,
any whitespace character, two or more `:` separators, or a character
outside `[A-Za-z0-9._-]` in any `:`-separated segment; it rejects the
spec's examples and accepts `myapp:latest` and `my-app_service:v1.0.0`. -/
theorem claim_C6_validateTag_rules :
    (∀ tag : List Char,
      (tag = [] ∨ 128 < (utf8Bytes tag).length ∨ (∃ c ∈ tag, isSpaceChar c = true) ∨
        2 ≤ tag.count ':' ∨ ∃ p ∈ splitChar ':' tag, ∃ c ∈ p, isValidTagChar c = false) →
      ∃ e, validateTag tag = .error e) ∧
    validateTag (List.replicate 129 'a') = .error (.tooLong 129) ∧
    validateTag (chs ("a\tb")) = .error (.invalidChar '\t') ∧
    validateTag (chs ("a b")) = .error (.invalidChar ' ') ∧
    validateTag (chs ("a:b:c")) = .error .tooManyParts ∧
    validateTag (chs ("bad@char")) = .error (.partInvalidChar 1 '@') ∧
    validateTag [] = .error .emptyTag ∧
    validateTag (chs ("myapp:latest")) = .ok () ∧
    validateTag (chs ("my-app_service:v1.0.0")) = .ok () := by
  refine ⟨?_, by decide, by decide, by decide, by decide, by decide, by decide, by decide,
    by decide⟩
  intro tag hcond
  unfold validateTag
  by_cases h1 : tag.isEmpty
  · exact ⟨.emptyTag, by rw [if_pos h1]⟩
  · rw [if_neg h1]
    by_cases h2 : 128 < (utf8Bytes tag).length
    · exact ⟨_, by rw [if_pos h2]⟩
    · rw [if_neg h2]
      cases hf : [' ', '\t', '\n', '\r'].find? (fun c => tag.contains c) with
      | some c => exact ⟨_, rfl⟩
      | none =>
        by_cases h4 : 2 < (splitChar ':' tag).length
        · exact ⟨_, by rw [if_pos h4]⟩
        · rw [if_neg h4]
          apply checkParts_error_of_bad
          rcases hcond with rfl | hlen | ⟨c, hc, hsp⟩ | hcount | ⟨p, hp, c, hc, hbad⟩
          · exact (h1 (by decide)).elim
          · exact absurd hlen h2
          · have hnc := List.find?_eq_none.mp hf
            have hmem : ∀ d : Char, d ∈ ([' ', '\t', '\n', '\r'] : List Char) → c ≠ d := by
              intro d hd heq
              subst heq
              exact (hnc c hd) (by simpa using List.elem_eq_true_of_mem hc)
            have hrest : c = Char.ofNat 11 ∨ c = Char.ofNat 12 ∨
                c = Char.ofNat 133 ∨ c = Char.ofNat 160 := by
              simp only [isSpaceChar, Bool.or_eq_true, decide_eq_true_eq] at hsp
              rcases hsp with ((((((h | h) | h) | h) | h) | h) | h) | h
              · exact absurd h (hmem ' ' (by simp))
              · exact absurd h (hmem '\t' (by simp))
              · exact absurd h (hmem '\n' (by simp))
              · exact Or.inl h
              · exact Or.inr (Or.inl h)
              · exact absurd h (hmem '\r' (by simp))
              · exact Or.inr (Or.inr (Or.inl h))
              · exact Or.inr (Or.inr (Or.inr h))
            have hcolon : c ≠ ':' := by
              rcases hrest with rfl | rfl | rfl | rfl <;> decide
            have hbadc : isValidTagChar c = false := by
              rcases hrest with rfl | rfl | rfl | rfl <;> decide
            obtain ⟨p, hp, hcp⟩ := mem_splitChar_of_mem ':' tag c hc hcolon
            exact ⟨p, hp, Or.inr ⟨c, hcp, hbadc⟩⟩
          · exact absurd (by rw [splitChar_length]; omega) h4
          · exact ⟨p, hp, Or.inr ⟨c, hc, hbad⟩⟩

/-- Witness for C6: the general rejection rule applied to a tag
containing a space. -/
theorem claim_C6_witness : ∃ e, validateTag (chs ("my app")) = .error e :=
  claim_C6_validateTag_rules.1 (chs ("my app"))
    (Or.inr (Or.inr (Or.inl ⟨' ', by decide, by decide⟩)))

/-- C10: a tag that is otherwise unremarkable (non-empty, within the
length limit) but whose first or last character is `:` is rejected,
because the segment on that side of the separator is empty. -/
theorem claim_C10_edge_colon_rejected (tag : List Char) (hne : tag ≠ [])
    (hlen : (utf8Bytes tag).length ≤ 128)
    (hcolon : tag.head? = some ':' ∨ tag.getLast? = some ':') :
    ∃ e, validateTag tag = .error e := by
  unfold validateTag
  rw [if_neg (by simpa using hne), if_neg (by omega)]
  cases hf : [' ', '\t', '\n', '\r'].find? (fun c => tag.contains c) with
  | some c => exact ⟨_, rfl⟩
  | none =>
    by_cases h4 : 2 < (splitChar ':' tag).length
    · rw [if_pos h4]
      exact ⟨_, rfl⟩
    · rw [if_neg h4]
      apply checkParts_error_of_bad
      rcases hcolon with hh | hl
      · cases tag with
        | nil => exact absurd rfl hne
        | cons c cs =>
          simp only [List.head?_cons, Option.some_inj] at hh
          subst hh
          refine ⟨[], ?_, Or.inl rfl⟩
          rw [show splitChar ':' (':' :: cs) = [] :: splitChar ':' cs from by
            simp [splitChar]]
          exact List.mem_cons_self _ _
      · have hlast := getLast?_splitChar ':' tag hl
        exact ⟨[], List.mem_of_mem_getLast? hlast, Or.inl rfl⟩

/-- Witness for C10: `myapp:` is rejected. -/
theorem claim_C10_witness : ∃ e, validateTag (chs ("myapp:")) = .error e :=
  claim_C10_edge_colon_rejected (chs ("myapp:")) (by decide) (by decide) (by decide)

/-! ## Claim C7: template validation -/

/-- C7: `ValidateTagFormat` rejects the empty template, an unclosed
token, a token outside the four recognised names, and any template whose
sample rendering fails `ValidateTag`; it accepts the spec's example, and
every accepted template renders (at the sample values) to a valid tag. -/
theorem claim_C7_validateTagFormat_rules :
    validateTagFormat [] = .error .emptyFormat ∧
    validateTagFormat (chs ("\x7b\x7bunknown\x7d\x7d")) =
      .error (.invalidVar (chs ("\x7b\x7bunknown\x7d\x7d"))) ∧
    validateTagFormat (chs ("\x7b\x7bstack")) = .error .unclosedVar ∧
    validateTagFormat (chs ("\x7b\x7bstack\x7d\x7d-\x7b\x7bservice\x7d\x7d:\x7b\x7bhash\x7d\x7d")) =
      .ok () ∧
    validateTagFormat (chs ("\x7b\x7bstack\x7d\x7d@tag")) =
      .error (.renderedInvalid (.partInvalidChar 1 '@')) ∧
    (∀ t : List Char, validateTagFormat t = .ok () →
      validateTag (renderTestTag t) = .ok ()) := by
  refine ⟨by decide, by decide, by decide, by decide, by decide, ?_⟩
  intro t h
  unfold validateTagFormat at h
  split at h
  · exact absurd h (by simp)
  · split at h
    · exact absurd h (by simp)
    · split at h
      · exact absurd h (by simp)
      · split at h
        · exact absurd h (by simp)
        · rename_i heq
          exact heq

/-- Witness for C7: the accepted default-style template renders to a
valid tag. -/
theorem claim_C7_witness :
    validateTag (renderTestTag
      (chs ("\x7b\x7bstack\x7d\x7d-\x7b\x7bservice\x7d\x7d:\x7b\x7bhash\x7d\x7d"))) = .ok () :=
  claim_C7_validateTagFormat_rules.2.2.2.2.2
    (chs ("\x7b\x7bstack\x7d\x7d-\x7b\x7bservice\x7d\x7d:\x7b\x7bhash\x7d\x7d")) (by decide)

/-! ## Claim C8: `.dockerignore` loading -/

/-- C8 (counterexample): a line with surrounding whitespace is *not*
taken verbatim — `loadDockerignore` trims it, so ` foo ` becomes the
pattern `foo`. -/
theorem claim_C8_counterexample :
    parseDockerignore (chs (" foo \n")) = [chs ("foo")] ∧
    parseDockerignore (chs (" foo \n")) ≠ [chs (" foo ")] := by
  exact ⟨by decide, by decide⟩

theorem filterMap_trim_filter :
    ∀ ls : List (List Char),
      ls.filterMap (fun rawLine =>
        if (trimSpace rawLine).isEmpty || (trimSpace rawLine).head? = some '#' then none
        else some (trimSpace rawLine)) =
      (ls.map trimSpace).filter (fun t => !(t.isEmpty || t.head? = some '#'))
  | [] => rfl
  | l :: ls => by
    by_cases hp : ((trimSpace l).isEmpty || decide ((trimSpace l).head? = some '#')) = true
    · have hl : (if (trimSpace l).isEmpty || (trimSpace l).head? = some '#' then none
          else some (trimSpace l)) = (none : Option (List Char)) := if_pos hp
      simp only [List.filterMap_cons, hl, List.map_cons, List.filter_cons]
      rw [if_neg (by simp [hp])]
      exact filterMap_trim_filter ls
    · have hl : (if (trimSpace l).isEmpty || (trimSpace l).head? = some '#' then none
          else some (trimSpace l)) = some (trimSpace l) := if_neg hp
      simp only [List.filterMap_cons, hl, List.map_cons, List.filter_cons]
      rw [if_pos (by simp only [Bool.not_eq_true] at hp; simp [hp])]
      rw [filterMap_trim_filter ls]

/-- C8 (amended): `.dockerignore` loading scans lines, trims surrounding
whitespace from each, skips lines that are blank or start with `#` after
trimming, and collects the trimmed remainder as patterns in file order. -/
theorem claim_C8_amended_trimmed_patterns :
    (∀ content : List Char,
      parseDockerignore content =
        ((scanLines content).map trimSpace).filter
          (fun t => !(t.isEmpty || t.head? = some '#'))) ∧
    parseDockerignore (chs ("# c\n\nfoo\n bar \r\n")) = [chs ("foo"), chs ("bar")] := by
  refine ⟨?_, by decide⟩
  intro content
  exact filterMap_trim_filter (scanLines content)

/-! ## Claim C1: all-or-nothing aggregation -/

theorem filterMap_success_eq_map :
    ∀ rs : List BuildResult, (∀ r ∈ rs, r.success = true) →
      rs.filterMap (fun r => if r.success then some (r.serviceName, r.imageTag) else none) =
        rs.map (fun r => (r.serviceName, r.imageTag))
  | [], _ => rfl
  | r :: rs, h => by
    have hr : r.success = true := h r (List.mem_cons_self _ _)
    have hfr : (if r.success = true then some (r.serviceName, r.imageTag) else none) =
        some (r.serviceName, r.imageTag) := if_pos hr
    simp only [List.filterMap_cons, hfr, List.map_cons]
    rw [filterMap_success_eq_map rs (fun x hx => h x (List.mem_cons_of_mem _ hx))]

/-- C1: with one result per launched service collected in arrival order
(every task runs to completion; the channel order is an arbitrary
permutation of the services), any failed service makes `BuildServices`
return no map and a single aggregate error carrying the number of failed
services and the first collected failure; and when every service
succeeded or was skipped the returned map holds exactly one entry per
service. -/
theorem claim_C1_all_or_nothing (build : ServiceBuildInfo → BuildResult)
    (services arrival : List ServiceBuildInfo)
    (hperm : arrival.Perm services) (hne : services ≠ [])
    (hname : ∀ s ∈ services, (build s).serviceName = s.serviceName) :
    ((∃ s ∈ services, (build s).success = false) →
      ∃ firstFail rest,
        (arrival.map build).filter (fun r => !r.success) = firstFail :: rest ∧
        buildServicesFrom build services arrival =
          .error (.buildFailed ((services.map build).filter (fun r => !r.success)).length
            firstFail)) ∧
    ((∀ s ∈ services, (build s).success = true) →
      buildServicesFrom build services arrival =
        .ok ((arrival.map build).map (fun r => (r.serviceName, r.imageTag))) ∧
      ((arrival.map build).map (fun r => (r.serviceName, r.imageTag))).Perm
        (services.map (fun s => (s.serviceName, (build s).imageTag))) ∧
      ((arrival.map build).map (fun r => (r.serviceName, r.imageTag))).length =
        services.length) := by
  have hsvc : ¬(services.isEmpty = true) := by simpa [List.isEmpty_iff] using hne
  constructor
  · rintro ⟨s, hs, hfail⟩
    have hmem : build s ∈ arrival.map build :=
      List.mem_map_of_mem build (hperm.mem_iff.mpr hs)
    have hmemf : build s ∈ (arrival.map build).filter (fun r => !r.success) :=
      List.mem_filter.mpr ⟨hmem, by simp [hfail]⟩
    have hcnt : ((arrival.map build).filter (fun r => !r.success)).length =
        ((services.map build).filter (fun r => !r.success)).length :=
      ((hperm.map build).filter _).length_eq
    cases hfil : (arrival.map build).filter (fun r => !r.success) with
    | nil =>
      rw [hfil] at hmemf
      exact absurd hmemf (List.not_mem_nil _)
    | cons f rest =>
      refine ⟨f, rest, rfl, ?_⟩
      unfold buildServicesFrom collectResults
      rw [if_neg hsvc, hfil]
      show Except.error (AggError.buildFailed (f :: rest).length f) = _
      rw [hfil] at hcnt
      rw [hcnt]
  · intro hall
    have hfil : (arrival.map build).filter (fun r => !r.success) = [] := by
      rw [List.filter_eq_nil_iff]
      intro r hr
      obtain ⟨s, hs, rfl⟩ := List.mem_map.mp hr
      simp [hall s (hperm.mem_iff.mp hs)]
    have hmap : (arrival.map build).filterMap
        (fun r => if r.success then some (r.serviceName, r.imageTag) else none) =
        (arrival.map build).map (fun r => (r.serviceName, r.imageTag)) := by
      apply filterMap_success_eq_map
      intro r hr
      obtain ⟨s, hs, rfl⟩ := List.mem_map.mp hr
      exact hall s (hperm.mem_iff.mp hs)
    refine ⟨?_, ?_, ?_⟩
    · unfold buildServicesFrom collectResults
      rw [if_neg hsvc, hfil]
      show Except.ok ((arrival.map build).filterMap
        (fun r => if r.success then some (r.serviceName, r.imageTag) else none)) = _
      rw [hmap]
    · have h1 : ((arrival.map build).map (fun r => (r.serviceName, r.imageTag))) =
          arrival.map (fun s => ((build s).serviceName, (build s).imageTag)) := by
        rw [List.map_map]
        rfl
      have h2 := hperm.map (fun s => ((build s).serviceName, (build s).imageTag))
      have h3 : services.map (fun s => ((build s).serviceName, (build s).imageTag)) =
          services.map (fun s => (s.serviceName, (build s).imageTag)) :=
        List.map_congr_left (fun s hs => by rw [hname s hs])
      rw [h1]
      exact h3 ▸ h2
    · simp only [List.length_map]
      exact hperm.length_eq

/-- Witness for C1: a single always-failing service yields the aggregate
error, not a map. -/
theorem claim_C1_witness :
    ∃ firstFail rest,
      ([svcSample].map buildAlwaysFail).filter (fun r => !r.success) = firstFail :: rest ∧
      buildServicesFrom buildAlwaysFail [svcSample] [svcSample] =
        .error (.buildFailed
          (([svcSample].map buildAlwaysFail).filter (fun r => !r.success)).length firstFail) :=
  (claim_C1_all_or_nothing buildAlwaysFail [svcSample] [svcSample] (List.Perm.refl _)
    (by simp) (fun _ _ => rfl)).1 ⟨svcSample, List.mem_cons_self _ _, rfl⟩

/-! ## Claims C4 and C9: the skip decision -/

/-- C4: with `ForceBuild` off, when the existence check affirms the
generated tag the service's result is an immediate success carrying that
tag, and the only external call made is the existence check itself — no
remote build, no local build, no load. -/
theorem claim_C4_skip_when_image_exists (world : BuildEnv) (cfg : BuildConfig)
    (stackName : List Char) (now : Nat) (svc : ServiceBuildInfo) (h : List Char)
    (hforce : cfg.forceBuild = false)
    (hhash : hashBuildContext svc.contextTree svc.dockerfile svc.args = .ok h)
    (hexists : world.imageExists
      (generateTag cfg.tagFormat stackName svc.serviceName h now) = .ok true) :
    buildService world cfg stackName now svc =
      (⟨svc.serviceName, generateTag cfg.tagFormat stackName svc.serviceName h now, true, none⟩,
        [.existsCheck (generateTag cfg.tagFormat stackName svc.serviceName h now)]) := by
  unfold buildService
  rw [hhash]
  simp only [hforce, Bool.false_eq_true, if_false, hexists]

set_option maxRecDepth 400000 in
/-- Witness for C4: the skip at a concrete one-file context. -/
theorem claim_C4_witness :
    buildService worldExists cfgSample (chs ("demo")) 0 svcSample =
      (⟨chs ("web"), generateTag cfgSample.tagFormat (chs ("demo")) (chs ("web")) hashSample 0,
          true, none⟩,
        [.existsCheck (generateTag cfgSample.tagFormat (chs ("demo")) (chs ("web")) hashSample 0)]) :=
  claim_C4_skip_when_image_exists worldExists cfgSample (chs ("demo")) 0 svcSample hashSample
    rfl (by decide) rfl

/-- C9: with `ForceBuild` off, an errored existence check is not fatal:
the service logs a warning and then behaves exactly as if the check had
answered "does not exist" — the same result and the same subsequent
calls, which is precisely what the same run against a world answering
`false` produces. -/
theorem claim_C9_exists_check_error_not_fatal (world : BuildEnv) (cfg : BuildConfig)
    (stackName : List Char) (now : Nat) (svc : ServiceBuildInfo) (h : List Char) (ce : ClientErr)
    (hforce : cfg.forceBuild = false)
    (hhash : hashBuildContext svc.contextTree svc.dockerfile svc.args = .ok h)
    (herr : world.imageExists
      (generateTag cfg.tagFormat stackName svc.serviceName h now) = .error ce) :
    buildService world cfg stackName now svc =
      ((buildPhase world cfg svc (generateTag cfg.tagFormat stackName svc.serviceName h now)).1,
        .existsCheck (generateTag cfg.tagFormat stackName svc.serviceName h now) ::
          .warnExistsCheckFailed svc.serviceName ::
          (buildPhase world cfg svc
            (generateTag cfg.tagFormat stackName svc.serviceName h now)).2) ∧
    buildService { world with imageExists := fun _ => .ok false } cfg stackName now svc =
      ((buildPhase world cfg svc (generateTag cfg.tagFormat stackName svc.serviceName h now)).1,
        .existsCheck (generateTag cfg.tagFormat stackName svc.serviceName h now) ::
          (buildPhase world cfg svc
            (generateTag cfg.tagFormat stackName svc.serviceName h now)).2) := by
  constructor
  · unfold buildService
    rw [hhash]
    simp only [hforce, Bool.false_eq_true, if_false, herr]
  · unfold buildService
    rw [hhash]
    simp only [hforce, Bool.false_eq_true, if_false]
    rfl

set_option maxRecDepth 400000 in
/-- Witness for C9: the warning-then-proceed behavior at a concrete
context against a world whose existence check always errors. -/
theorem claim_C9_witness :
    buildService worldCheckErr cfgSample (chs ("demo")) 0 svcSample =
      ((buildPhase worldCheckErr cfgSample svcSample
          (generateTag cfgSample.tagFormat (chs ("demo")) (chs ("web")) hashSample 0)).1,
        .existsCheck (generateTag cfgSample.tagFormat (chs ("demo")) (chs ("web")) hashSample 0) ::
          .warnExistsCheckFailed (chs ("web")) ::
          (buildPhase worldCheckErr cfgSample svcSample
            (generateTag cfgSample.tagFormat (chs ("demo")) (chs ("web")) hashSample 0)).2) :=
  (claim_C9_exists_check_error_not_fatal worldCheckErr cfgSample (chs ("demo")) 0 svcSample
    hashSample (.err 7) rfl (by decide) rfl).1

set_option maxRecDepth 400000 in
/-- Witness for C3 (amended): two concrete two-entry contexts in swapped
entry order hash identically. -/
theorem claim_C3_witness :
    hashBuildContext
        (.dir [(chs ("a"), .file (some (chs ("x")))), (chs ("b"), .file (some (chs ("Y"))))])
        [] [] =
      hashBuildContext
        (.dir [(chs ("b"), .file (some (chs ("Y")))), (chs ("a"), .file (some (chs ("x"))))])
        [] [] :=
  claim_C3_amended_order_independence
    (List.Perm.swap (chs ("b"), .file (some (chs ("Y")))) (chs ("a"), .file (some (chs ("x")))) [])
    (by decide) [] []

end Pctl
